import Mathlib

deriving instance DecidableEq for Except

/- Formal model of the BT-to-OneDrive task lifecycle service:
   main.py (task store and reconciler), scripts/onedrive_uploader.py
   (chunked upload protocol, folder upload) and the two download-client
   adapters scripts/bt_downloader.py (libtorrent) and
   scripts/bt_downloader_transmission.py (transmission). -/

namespace BTOneDrive

/-- Snapshot returned by BTDownloader.get_torrent_status
(scripts/bt_downloader_transmission.py lines 101-134).  The floating point
progress and rate fields are abstracted away; isFinished records the flag the
adapter computes from them (progress at least 99.9), which is the only part of
the snapshot the reconciler inspects. -/
structure TorrentStatus where
  infoHash : String
  name : String
  state : String
  numPeers : Nat
  isFinished : Bool
  files : List String
  savePath : String
deriving DecidableEq, Repr

/-- Result dict of OneDriveUploader.upload_file and its helpers
(scripts/onedrive_uploader.py).  jsonResult models response.json() of a
successful upload, as an association list of its entries; errorResult models
the literal dict with the single key error built on every failure path. -/
inductive FileUploadResult where
  | jsonResult (entries : List (String × String))
  | errorResult (msg : String)
deriving DecidableEq, Repr

/-- Python test "'error' in result" on a file upload result. -/
def FileUploadResult.hasErrorKey : FileUploadResult → Bool
  | .jsonResult es => es.any (fun e => e.1 == "error")
  | .errorResult _ => true

/-- Python expression result["error"], used by upload_folder when the
membership test succeeded (scripts/onedrive_uploader.py line 448). -/
def FileUploadResult.errValue : FileUploadResult → String
  | .jsonResult es => ((es.find? (fun e => e.1 == "error")).map (fun e => e.2)).getD ""
  | .errorResult m => m

/-- Result dict of OneDriveUploader.upload_folder
(scripts/onedrive_uploader.py lines 402-456): either one of the two early
single-key error dicts, or the walk summary dict that is created with both
keys success and error (lines 425-428) and returned unconditionally. -/
inductive FolderUploadResult where
  | notDirectory (msg : String)
  | createFailed (msg : String)
  | summary (succeeded : List String) (failed : List (String × String))
deriving DecidableEq, Repr

/-- Python test "'error' in result" on a folder upload result.  The summary
dict always carries the key error (its value may be the empty list). -/
def FolderUploadResult.hasErrorKey : FolderUploadResult → Bool
  | .notDirectory _ => true
  | .createFailed _ => true
  | .summary _ _ => true

/-- Python test "'success' in result" on a folder upload result. -/
def FolderUploadResult.hasSuccessKey : FolderUploadResult → Bool
  | .notDirectory _ => false
  | .createFailed _ => false
  | .summary _ _ => true

/-- The upload_result value stored on a task by check_downloads
(main.py lines 168-173): a file result or a folder result depending on
os.path.isdir. -/
inductive UploadResult where
  | file (r : FileUploadResult)
  | folder (r : FolderUploadResult)
deriving DecidableEq, Repr

/-- Python test "'error' in upload_result" performed by the caller
(main.py line 175). -/
def UploadResult.hasErrorKey : UploadResult → Bool
  | .file r => r.hasErrorKey
  | .folder r => r.hasErrorKey

/-- One task record (a JSON object inside tasks.json).  The fields are exactly
those main.py ever writes: source and added_time at submission (lines
105-108), start_time on the downloading entry (lines 125-129), status,
upload_result and complete_time during polling (lines 154-181), error on a
failed dispatch (line 139). -/
structure Task where
  source : String
  addedTime : Nat
  startTime : Option Nat := none
  status : Option TorrentStatus := none
  uploadResult : Option UploadResult := none
  completeTime : Option Nat := none
  error : Option String := none
deriving DecidableEq, Repr

/-- The four buckets of tasks.json (main.py lines 67-72): pending, completed
and failed are JSON lists, downloading is a JSON object keyed by info hash,
modelled as an association list in insertion order. -/
structure Tasks where
  pending : List Task
  downloading : List (String × Task)
  completed : List Task
  failed : List Task
deriving DecidableEq, Repr

/-- Python dict assignment d[k] = v on the downloading object: replace the
value in place if the key exists, otherwise append the binding. -/
def dictInsert (d : List (String × Task)) (k : String) (v : Task) : List (String × Task) :=
  if d.any (fun p => p.1 == k) then
    d.map (fun p => if p.1 == k then (k, v) else p)
  else d ++ [(k, v)]

/-- Python del d[k] on the downloading object. -/
def dictDelete (d : List (String × Task)) (k : String) : List (String × Task) :=
  d.filter (fun p => p.1 != k)

/-- The duplicate check of add_task (main.py lines 93-102): scan the three
list buckets by t.get('source') and the downloading dict by the source of each
value. -/
def sourceInBuckets (ts : Tasks) (src : String) : Bool :=
  ts.pending.any (fun t => t.source == src) ||
  ts.downloading.any (fun p => p.2.source == src) ||
  ts.completed.any (fun t => t.source == src) ||
  ts.failed.any (fun t => t.source == src)

/-- The fresh pending record built by add_task (main.py lines 105-108). -/
def mkPendingTask (src : String) (now : Nat) : Task :=
  { source := src, addedTime := now }

/-- BTOneDriveService.add_task (main.py lines 82-112).  Returns the boolean
result, the new task set, and whether _save_tasks was invoked.  On a duplicate
the function returns False before touching the buckets and before saving. -/
def add_task (ts : Tasks) (src : String) (now : Nat) : Bool × Tasks × Bool :=
  if sourceInBuckets ts src then (false, ts, false)
  else (true, { ts with pending := ts.pending ++ [mkPendingTask src now] }, true)

/-- The downloading record built when a pending task is dispatched
(main.py lines 125-129): a fresh dict holding only source, start_time and
added_time. -/
def dlTask (now : Nat) (t : Task) : Task :=
  { source := t.source, addedTime := t.addedTime, startTime := some now }

/-- One iteration of the process_pending_tasks loop (main.py lines 119-142)
over one snapshot task.  The accumulator carries the task set and the number
of _save_tasks calls; both branches remove the task from pending and save. -/
def dispatchOne (add : String → Except String String) (now : Nat)
    (acc : Tasks × Nat) (task : Task) : Tasks × Nat :=
  match add task.source with
  | .ok infoHash =>
      ({ acc.1 with
           downloading := dictInsert acc.1.downloading infoHash (dlTask now task),
           pending := acc.1.pending.erase task }, acc.2 + 1)
  | .error e =>
      ({ acc.1 with
           failed := acc.1.failed ++ [{ task with error := some e }],
           pending := acc.1.pending.erase task }, acc.2 + 1)

/-- BTOneDriveService.process_pending_tasks (main.py lines 114-142): iterate
over a snapshot list(self.tasks['pending']) taken before any mutation, with
add_torrent modelled as a function from the source to either an info hash or
the text of the raised exception. -/
def process_pending_tasks (add : String → Except String String) (now : Nat)
    (ts : Tasks) : Tasks × Nat :=
  ts.pending.foldl (dispatchOne add now) (ts, 0)

/-- The collaborators check_downloads consults (main.py lines 144-191):
get_torrent_status (an exception is modelled as the error case), the
downloader's get_download_path, os.path.isdir, the two uploader entry points,
and the clock read by time.time(). -/
structure Env where
  getStatus : String → Except String TorrentStatus
  getDownloadPath : String → Option String
  isDir : String → Bool
  uploadFile : String → FileUploadResult
  uploadFolder : String → FolderUploadResult
  now : Nat

/-- One iteration of the check_downloads loop (main.py lines 149-191) on one
snapshot pair (info_hash, task).  A poll error leaves the state untouched;
otherwise the status is written onto the downloading entry, and if the status
is finished the task is completed: the upload result (if the path resolves)
and complete_time are recorded, the record is appended to completed and the
key is deleted from downloading. -/
def checkOne (env : Env) (ts : Tasks) (ih : String) (task : Task) : Tasks :=
  match env.getStatus ih with
  | .error _ => ts
  | .ok st =>
    let task1 := { task with status := some st }
    let ts1 := { ts with downloading := dictInsert ts.downloading ih task1 }
    if st.isFinished then
      let task2 :=
        match env.getDownloadPath ih with
        | some p =>
            { task1 with uploadResult := some (if env.isDir p
                then UploadResult.folder (env.uploadFolder p)
                else UploadResult.file (env.uploadFile p)) }
        | none => task1
      let task3 := { task2 with completeTime := some env.now }
      { ts1 with completed := ts1.completed ++ [task3],
                 downloading := dictDelete ts1.downloading ih }
    else ts1

/-- BTOneDriveService.check_downloads (main.py lines 144-191): iterate over
the snapshot list(self.tasks['downloading'].items()). -/
def check_downloads (env : Env) (ts : Tasks) : Tasks :=
  ts.downloading.foldl (fun acc p => checkOne env acc p.1 p.2) ts

/-- Per-entry outcome of one check_downloads iteration on the downloading
bucket: the entry that remains in downloading, if any. -/
def pollStay (env : Env) (p : String × Task) : Option (String × Task) :=
  match env.getStatus p.1 with
  | .error _ => some p
  | .ok st => if st.isFinished then none else some (p.1, { p.2 with status := some st })

/-- The completed record built by check_downloads for a finished task
(main.py lines 158-181). -/
def completedTask (env : Env) (ih : String) (task : Task) (st : TorrentStatus) : Task :=
  let task1 := { task with status := some st }
  let task2 :=
    match env.getDownloadPath ih with
    | some p =>
        { task1 with uploadResult := some (if env.isDir p
            then UploadResult.folder (env.uploadFolder p)
            else UploadResult.file (env.uploadFile p)) }
    | none => task1
  { task2 with completeTime := some env.now }

/-- Per-entry outcome of one check_downloads iteration: the record appended
to completed, if any. -/
def pollMove (env : Env) (p : String × Task) : Option Task :=
  match env.getStatus p.1 with
  | .error _ => none
  | .ok st => if st.isFinished then some (completedTask env p.1 p.2 st) else none

/-- The info hash assigned to a pending task by add_torrent, when dispatch
succeeds. -/
def okHash (add : String → Except String String) (t : Task) : Option String :=
  (add t.source).toOption

/-- The downloading entries created by one process_pending_tasks run over a
snapshot of the pending bucket. -/
def okEntries (add : String → Except String String) (now : Nat)
    (snap : List Task) : List (String × Task) :=
  snap.filterMap (fun t =>
    match add t.source with
    | .ok h => some (h, dlTask now t)
    | .error _ => none)

/-- The failed records created by one process_pending_tasks run over a
snapshot of the pending bucket. -/
def errTasks (add : String → Except String String) (snap : List Task) : List Task :=
  snap.filterMap (fun t =>
    match add t.source with
    | .ok _ => none
    | .error e => some { t with error := some e })

/-- The downloading-dict effect of one process_pending_tasks run: the fold of
the per-task dict assignments of main.py line 125 over a snapshot of the
pending bucket. -/
def insertAll (add : String → Except String String) (now : Nat)
    (snap : List Task) (d : List (String × Task)) : List (String × Task) :=
  snap.foldl (fun d t =>
    match add t.source with
    | .ok h => dictInsert d h (dlTask now t)
    | .error _ => d) d

/-- All sources in the store, one occurrence per task record, in bucket
order. -/
def sourcesList (ts : Tasks) : List String :=
  ts.pending.map Task.source ++ ts.downloading.map (fun p => p.2.source) ++
  ts.completed.map Task.source ++ ts.failed.map Task.source

/-- Number of task records carrying a given source, across all four
buckets. -/
def occurrences (ts : Tasks) (s : String) : Nat :=
  (sourcesList ts).count s

/-- Membership tests per bucket, by source. -/
def inPending (ts : Tasks) (s : String) : Bool :=
  ts.pending.any (fun t => t.source == s)

def inDownloading (ts : Tasks) (s : String) : Bool :=
  ts.downloading.any (fun p => p.2.source == s)

def inCompleted (ts : Tasks) (s : String) : Bool :=
  ts.completed.any (fun t => t.source == s)

def inFailed (ts : Tasks) (s : String) : Bool :=
  ts.failed.any (fun t => t.source == s)

/-- The chunk size of OneDriveUploader._chunked_upload
(scripts/onedrive_uploader.py line 356): 10 MiB. -/
def chunkSize : Nat := 10 * 1024 * 1024

/-- total_chunks = (file_size + chunk_size - 1) // chunk_size
(scripts/onedrive_uploader.py line 357). -/
def totalChunks (fileSize : Nat) : Nat := (fileSize + chunkSize - 1) / chunkSize

/-- One range-addressed PUT of the chunk loop: Content-Range is
bytes start-last/total with last inclusive, Content-Length is the byte count
of the chunk (scripts/onedrive_uploader.py lines 365-378). -/
structure PutReq where
  start : Nat
  last : Nat
  contentLength : Nat
deriving DecidableEq, Repr

/-- The PUT issued for chunk number chunkNum: start = chunk_num * chunk_size,
last = min(file_size, start + chunk_size) - 1, and the body read from the
file has last - start + 1 bytes (scripts/onedrive_uploader.py lines
365-375). -/
def putFor (fileSize chunkNum : Nat) : PutReq :=
  { start := chunkNum * chunkSize,
    last := min fileSize (chunkNum * chunkSize + chunkSize) - 1,
    contentLength := min fileSize (chunkNum * chunkSize + chunkSize) - 1 - chunkNum * chunkSize + 1 }

/-- An HTTP response as the upload code observes it: status code, parsed JSON
entries and raw body text. -/
structure HttpResp where
  status : Nat
  jsonEntries : List (String × String)
  body : String
deriving DecidableEq, Repr

/-- The chunk loop of _chunked_upload (scripts/onedrive_uploader.py lines
363-400), processing the listed chunk numbers in order against the server's
per-chunk responses.  A 200/201 returns the response JSON at once, a 202
continues, anything else aborts with the status and body captured; an
exhausted loop returns the no-confirmation error dict (line 400).  The first
component collects the PUTs actually issued. -/
def chunkedLoop (fileSize : Nat) (resp : Nat → HttpResp) :
    List Nat → List PutReq × FileUploadResult
  | [] => ([], .errorResult "Upload completed but no confirmation received")
  | n :: rest =>
    let p := putFor fileSize n
    let r := resp n
    if r.status == 200 || r.status == 201 then
      ([p], .jsonResult r.jsonEntries)
    else if r.status == 202 then
      let res := chunkedLoop fileSize resp rest
      (p :: res.1, res.2)
    else
      ([p], .errorResult ("Failed chunk upload: " ++ toString r.status ++ " - " ++ r.body))

/-- OneDriveUploader._chunked_upload (scripts/onedrive_uploader.py lines
317-400): create the upload session (anything but 200 aborts), then run the
chunk loop over chunk numbers 0 .. total_chunks - 1. -/
def chunked_upload (sessionResp : HttpResp) (fileSize : Nat)
    (resp : Nat → HttpResp) : List PutReq × FileUploadResult :=
  if sessionResp.status != 200 then
    ([], .errorResult ("Failed to create upload session: " ++
      toString sessionResp.status ++ " - " ++ sessionResp.body))
  else
    chunkedLoop fileSize resp (List.range (totalChunks fileSize))

/-- Adjacent Content-Range intervals are contiguous: each next start is the
previous inclusive end plus one. -/
def contiguousRanges : List PutReq → Bool
  | [] => true
  | [_] => true
  | a :: b :: rest => (b.start == a.last + 1) && contiguousRanges (b :: rest)

/-- The interval starts are strictly increasing. -/
def increasingStarts : List PutReq → Bool
  | [] => true
  | [_] => true
  | a :: b :: rest => (decide (a.start < b.start)) && increasingStarts (b :: rest)

/-- The intervals exactly cover bytes 0 .. fileSize - 1: the first starts at
0, the last ends at fileSize - 1 inclusive, consecutive intervals are
contiguous, every interval is nonempty and its Content-Length matches. -/
def coversExactly (fileSize : Nat) (ps : List PutReq) : Bool :=
  match ps with
  | [] => fileSize == 0
  | a :: _ =>
    a.start == 0 &&
    (match ps.getLast? with
      | some z => z.last + 1 == fileSize
      | none => false) &&
    contiguousRanges ps &&
    ps.all (fun p => (decide (p.start ≤ p.last)) && p.contentLength == p.last - p.start + 1)

/-- The per-file walk of upload_folder (scripts/onedrive_uploader.py lines
430-454): each file is uploaded; a result with an error key is appended to
the error list, any other result to the success list, and a single failure
never aborts the walk. -/
def walkUploads (up : String → FileUploadResult) (files : List String) :
    List String × List (String × String) :=
  files.foldl (fun acc f =>
    let r := up f
    if r.hasErrorKey then (acc.1, acc.2 ++ [(f, r.errValue)])
    else (acc.1 ++ [f], acc.2)) ([], [])

/-- OneDriveUploader.upload_folder (scripts/onedrive_uploader.py lines
402-456): reject a non-directory, abort when creating the mirrored target
folder fails, otherwise walk the tree and return the summary dict that is
initialised with both the success and the error key (lines 425-428).  The
directory test, the folder creation outcome and the flattened list of files
found by os.walk are passed in as the environment of the call. -/
def upload_folder (isDirFlag : Bool) (folderPath : String)
    (createFolder : Except String Unit) (files : List String)
    (up : String → FileUploadResult) : FolderUploadResult :=
  if isDirFlag = false then .notDirectory ("Not a directory: " ++ folderPath)
  else
    match createFolder with
    | .error m => .createFailed m
    | .ok _ =>
      let w := walkUploads up files
      .summary w.1 w.2

/-- Metadata of one torrent as the adapters read it from their engine: the
display name, the number of files, and whether metadata has arrived. -/
structure TorrentMeta where
  name : String
  numFiles : Nat
  hasMetadata : Bool
deriving DecidableEq, Repr

/-- os.path.join as used by both adapters. -/
def pathJoin (a b : String) : String := a ++ "/" ++ b

/-- Lookup of an info hash in the handles dict of the transmission adapter
(info hash to transmission torrent id). -/
def lookupHandle (hs : List (String × Nat)) (ih : String) : Option Nat :=
  (hs.find? (fun p => p.1 == ih)).map (fun p => p.2)

/-- Lookup of an info hash in the handles dict of the libtorrent adapter
(info hash to handle, modelled by the torrent's metadata). -/
def lookupLib (hs : List (String × TorrentMeta)) (ih : String) : Option TorrentMeta :=
  (hs.find? (fun p => p.1 == ih)).map (fun p => p.2)

namespace Transmission

/-- BTDownloader.get_download_path of the transmission adapter
(scripts/bt_downloader_transmission.py lines 179-204): None for an unknown
hash; otherwise the torrent is fetched and os.path.join(download_dir,
torrent.name) is returned, by the single-file branch when the torrent has
exactly one file and by the directory branch otherwise.  No metadata check is
performed. -/
def get_download_path (downloadDir : String) (handles : List (String × Nat))
    (torrents : Nat → TorrentMeta) (ih : String) : Option String :=
  match lookupHandle handles ih with
  | none => none
  | some tid =>
    let t := torrents tid
    if t.numFiles == 1 then some (pathJoin downloadDir t.name)
    else some (pathJoin downloadDir t.name)

end Transmission

namespace Libtorrent

/-- BTDownloader.get_download_path of the libtorrent adapter
(scripts/bt_downloader.py lines 166-192): None for an unknown hash, None when
the handle has no metadata yet, otherwise os.path.join(download_dir,
handle.name()) from the single-file branch when num_files() == 1 and from the
directory branch otherwise. -/
def get_download_path (downloadDir : String)
    (handles : List (String × TorrentMeta)) (ih : String) : Option String :=
  match lookupLib handles ih with
  | none => none
  | some t =>
    if t.hasMetadata = false then none
    else if t.numFiles == 1 then some (pathJoin downloadDir t.name)
    else some (pathJoin downloadDir t.name)

end Libtorrent

/-- A pending task record used in concrete runs. -/
def task0 : Task := { source := "magnet:a", addedTime := 1 }

/-- The empty store, as initialised on a fresh start (main.py lines 67-72). -/
def tsEmpty : Tasks := { pending := [], downloading := [], completed := [], failed := [] }

/-- A store whose pending bucket already holds source magnet:a. -/
def tsDup : Tasks := { pending := [task0], downloading := [], completed := [], failed := [] }

def taskM1 : Task := { source := "m1", addedTime := 1 }

def taskM2 : Task := { source := "m2", addedTime := 2 }

def taskC : Task := { source := "mc", addedTime := 0 }

def taskD : Task := { source := "md", addedTime := 0 }

/-- A store with two pending tasks, one downloading task, one completed
task. -/
def tsMix : Tasks :=
  { pending := [taskM1, taskM2], downloading := [("hd", taskD)],
    completed := [taskC], failed := [] }

/-- A concrete add_torrent collaborator: accepts m1 with hash h1, rejects
everything else. -/
def addFn : String → Except String String :=
  fun s => if s == "m1" then .ok "h1" else .error "connection refused"

/-- A finished status snapshot for hash hd. -/
def stFin : TorrentStatus :=
  { infoHash := "hd", name := "file.bin", state := "seeding", numPeers := 3,
    isFinished := true, files := ["file.bin"], savePath := "/dl" }

/-- A concrete environment in which hd polls as finished, the artifact path
resolves to a regular file, and the upload fails. -/
def envFin : Env :=
  { getStatus := fun ih => if ih == "hd" then .ok stFin else .error "not found",
    getDownloadPath := fun _ => some "/dl/file.bin",
    isDir := fun _ => false,
    uploadFile := fun _ => .errorResult "Failed chunk upload: 507 - storage full",
    uploadFolder := fun _ => .summary [] [],
    now := 99 }

/-- A concrete environment in which every status poll raises. -/
def envErr : Env :=
  { getStatus := fun _ => .error "timeout",
    getDownloadPath := fun _ => none,
    isDir := fun _ => false,
    uploadFile := fun _ => .jsonResult [("id", "1")],
    uploadFolder := fun _ => .summary [] [],
    now := 5 }

/-- A 200 response creating an upload session. -/
def sessOk : HttpResp := { status := 200, jsonEntries := [("uploadUrl", "u")], body := "" }

/-- A server that answers 202 to every chunk. -/
def resp202 : Nat → HttpResp := fun _ => { status := 202, jsonEntries := [], body := "" }

theorem sourceInBuckets_iff_mem (ts : Tasks) (s : String) :
    sourceInBuckets ts s = true ↔ s ∈ sourcesList ts := by
  simp only [sourceInBuckets, sourcesList, List.mem_append, List.mem_map,
    Bool.or_eq_true, List.any_eq_true, beq_iff_eq]

theorem occurrences_eq_zero_iff (ts : Tasks) (s : String) :
    occurrences ts s = 0 ↔ sourceInBuckets ts s = false := by
  rw [occurrences, List.count_eq_zero]
  rw [← Bool.not_eq_true, not_iff_not, sourceInBuckets_iff_mem]

theorem occurrences_add_pending (ts : Tasks) (s : String) (n : Nat) :
    occurrences { ts with pending := ts.pending ++ [mkPendingTask s n] } s =
      occurrences ts s + 1 := by
  simp only [occurrences, sourcesList, mkPendingTask, List.map_append, List.count_append,
    List.map_cons, List.map_nil]
  have : List.count s [s] = 1 := by simp
  omega

/-- C10: when the submitted source is already present in some bucket,
add_task answers False, leaves the task set untouched, and never reaches the
_save_tasks call (main.py lines 92-102 return before lines 104-110). -/
theorem add_task_duplicate_noop (ts : Tasks) (s : String) (now : Nat)
    (hdup : sourceInBuckets ts s = true) :
    add_task ts s now = (false, ts, false) := by
  simp [add_task, hdup]

/-- Witness for C10 on a concrete duplicate submission. -/
theorem add_task_duplicate_noop_witness :
    add_task tsDup "magnet:a" 7 = (false, tsDup, false) :=
  add_task_duplicate_noop tsDup "magnet:a" 7 (by decide)

/-- C1: a source occupying any bucket is rejected as a duplicate, and from a
state with no occurrence of the source, two consecutive submissions answer
True then False and leave exactly one task carrying that source
(main.py lines 82-112). -/
theorem submit_accepted_then_duplicate (ts : Tasks) (s : String) (n1 n2 : Nat) :
    (sourceInBuckets ts s = true → (add_task ts s n1).1 = false) ∧
    (occurrences ts s = 0 →
      (add_task ts s n1).1 = true ∧
      (add_task (add_task ts s n1).2.1 s n2).1 = false ∧
      occurrences (add_task (add_task ts s n1).2.1 s n2).2.1 s = 1) := by
  constructor
  · intro h
    simp [add_task, h]
  · intro h0
    have hfalse : sourceInBuckets ts s = false := (occurrences_eq_zero_iff ts s).mp h0
    have h1 : add_task ts s n1 =
        (true, { ts with pending := ts.pending ++ [mkPendingTask s n1] }, true) := by
      simp [add_task, hfalse]
    have hocc1 : occurrences { ts with pending := ts.pending ++ [mkPendingTask s n1] } s = 1 := by
      rw [occurrences_add_pending, h0]
    have hin : sourceInBuckets { ts with pending := ts.pending ++ [mkPendingTask s n1] } s = true := by
      cases hc : sourceInBuckets { ts with pending := ts.pending ++ [mkPendingTask s n1] } s
      · exfalso
        have := (occurrences_eq_zero_iff _ s).mpr hc
        omega
      · rfl
    refine ⟨by rw [h1], ?_, ?_⟩
    · rw [h1]
      simp [add_task, hin]
    · rw [h1]
      simp only [add_task, hin, if_pos]
      exact hocc1

/-- Witness for C1 on the empty store. -/
theorem submit_accepted_then_duplicate_witness :
    (add_task tsEmpty "magnet:a" 1).1 = true ∧
    (add_task (add_task tsEmpty "magnet:a" 1).2.1 "magnet:a" 2).1 = false ∧
    occurrences (add_task (add_task tsEmpty "magnet:a" 1).2.1 "magnet:a" 2).2.1 "magnet:a" = 1 :=
  (submit_accepted_then_duplicate tsEmpty "magnet:a" 1 2).2 (by decide)

theorem walkUploads_go (up : String → FileUploadResult) :
    ∀ (files : List String) (a : List String) (b : List (String × String)),
      (∀ f ∈ files, (up f).hasErrorKey = false) →
      files.foldl (fun acc f =>
        let r := up f
        if r.hasErrorKey then (acc.1, acc.2 ++ [(f, r.errValue)])
        else (acc.1 ++ [f], acc.2)) (a, b) = (a ++ files, b) := by
  intro files
  induction files with
  | nil => intro a b _; simp
  | cons f rest ih =>
    intro a b hall
    have hf : (up f).hasErrorKey = false := hall f (by simp)
    simp only [List.foldl_cons, hf]
    rw [if_neg (by simp [hf])]
    rw [ih (a ++ [f]) b (fun g hg => hall g (by simp [hg]))]
    simp

/-- C9: when the target folder creation succeeds, upload_folder returns the
summary dict that carries both the success and the error key even when every
file uploads cleanly (the error key then maps to the empty list), so the
caller's membership test on the key error (main.py line 175) evaluates the
same way on a fully successful folder upload as on a failed one
(scripts/onedrive_uploader.py lines 425-456). -/
theorem upload_folder_always_has_error_key (folderPath : String)
    (files : List String) (up : String → FileUploadResult) :
    (upload_folder true folderPath (.ok ()) files up).hasErrorKey = true ∧
    (upload_folder true folderPath (.ok ()) files up).hasSuccessKey = true ∧
    UploadResult.hasErrorKey
      (.folder (upload_folder true folderPath (.ok ()) files up)) = true ∧
    ((∀ f ∈ files, (up f).hasErrorKey = false) →
      upload_folder true folderPath (.ok ()) files up = .summary files []) := by
  refine ⟨?_, ?_, ?_, ?_⟩
  · simp [upload_folder, FolderUploadResult.hasErrorKey]
  · simp [upload_folder, FolderUploadResult.hasSuccessKey]
  · simp [upload_folder, UploadResult.hasErrorKey, FolderUploadResult.hasErrorKey]
  · intro hall
    have hw : walkUploads up files = (files, []) := by
      rw [walkUploads, walkUploads_go up files [] [] hall]
      simp
    simp [upload_folder, hw]

/-- Witness for C9: two files that both upload cleanly. -/
theorem upload_folder_always_has_error_key_witness :
    (upload_folder true "/dl/show" (.ok ()) ["/dl/show/a", "/dl/show/b"]
      (fun _ => .jsonResult [("id", "1")])).hasErrorKey = true ∧
    (upload_folder true "/dl/show" (.ok ()) ["/dl/show/a", "/dl/show/b"]
      (fun _ => .jsonResult [("id", "1")])).hasSuccessKey = true ∧
    UploadResult.hasErrorKey (.folder (upload_folder true "/dl/show" (.ok ())
      ["/dl/show/a", "/dl/show/b"] (fun _ => .jsonResult [("id", "1")]))) = true ∧
    ((∀ f ∈ ["/dl/show/a", "/dl/show/b"],
        ((fun _ => FileUploadResult.jsonResult [("id", "1")]) f).hasErrorKey = false) →
      upload_folder true "/dl/show" (.ok ()) ["/dl/show/a", "/dl/show/b"]
        (fun _ => .jsonResult [("id", "1")]) = .summary ["/dl/show/a", "/dl/show/b"] []) :=
  upload_folder_always_has_error_key "/dl/show" ["/dl/show/a", "/dl/show/b"]
    (fun _ => .jsonResult [("id", "1")])

theorem chunkedLoop_all_202 (fileSize : Nat) (resp : Nat → HttpResp) :
    ∀ (ns : List Nat), (∀ n ∈ ns, (resp n).status = 202) →
      (chunkedLoop fileSize resp ns).2 =
        .errorResult "Upload completed but no confirmation received" := by
  intro ns
  induction ns with
  | nil => intro _; rfl
  | cons n rest ih =>
    intro hall
    have hn : (resp n).status = 202 := hall n (by simp)
    simp only [chunkedLoop, hn]
    norm_num
    exact ih (fun m hm => hall m (by simp [hm]))

/-- C8: when the session is created and every chunk PUT is answered 202, the
loop exhausts all chunks and _chunked_upload returns the explicit
no-confirmation error dict instead of a success descriptor
(scripts/onedrive_uploader.py lines 363-400). -/
theorem chunked_upload_no_confirmation (fileSize : Nat) (sess : HttpResp)
    (resp : Nat → HttpResp) (hsess : sess.status = 200)
    (hall : ∀ i < totalChunks fileSize, (resp i).status = 202) :
    (chunked_upload sess fileSize resp).2 =
      .errorResult "Upload completed but no confirmation received" := by
  rw [chunked_upload, if_neg (by simp [hsess])]
  exact chunkedLoop_all_202 fileSize resp (List.range (totalChunks fileSize))
    (fun n hn => hall n (List.mem_range.mp hn))

/-- Witness for C8 on a one-chunk file whose only PUT is answered 202. -/
theorem chunked_upload_no_confirmation_witness :
    (chunked_upload sessOk 1 resp202).2 =
      .errorResult "Upload completed but no confirmation received" :=
  chunked_upload_no_confirmation 1 sessOk resp202 (by decide) (by decide)

/-- Counterexample for C5: the transmission adapter performs no metadata
check, so for a known hash whose torrent has no metadata yet it still returns
a path instead of None (scripts/bt_downloader_transmission.py lines
179-204). -/
theorem transmission_path_ignores_metadata :
    ({ name := "x", numFiles := 0, hasMetadata := false } : TorrentMeta).hasMetadata = false ∧
    Transmission.get_download_path "/downloads" [("h", 0)]
      (fun _ => { name := "x", numFiles := 0, hasMetadata := false }) "h" =
      some "/downloads/x" := by
  constructor
  · rfl
  · decide

/-- C5 as amended: the libtorrent adapter returns None for an unknown hash or
when metadata has not arrived, and otherwise returns
os.path.join(download_dir, name) from the single-file branch and from the
directory branch alike; the transmission adapter returns None only for an
unknown hash and returns os.path.join(download_dir, name) for every known
hash without consulting metadata (scripts/bt_downloader.py lines 166-192,
scripts/bt_downloader_transmission.py lines 179-204). -/
theorem get_download_path_characterised (dir : String) (hs : List (String × Nat))
    (tor : Nat → TorrentMeta) (lhs : List (String × TorrentMeta))
    (ihKnown ihUnknown : String) (tid : Nat) (t : TorrentMeta)
    (h1 : lookupHandle hs ihKnown = some tid)
    (h2 : lookupLib lhs ihKnown = some t)
    (h3 : lookupHandle hs ihUnknown = none)
    (h4 : lookupLib lhs ihUnknown = none) :
    Transmission.get_download_path dir hs tor ihKnown = some (pathJoin dir (tor tid).name) ∧
    Transmission.get_download_path dir hs tor ihUnknown = none ∧
    Libtorrent.get_download_path dir lhs ihUnknown = none ∧
    (t.hasMetadata = false → Libtorrent.get_download_path dir lhs ihKnown = none) ∧
    (t.hasMetadata = true →
      Libtorrent.get_download_path dir lhs ihKnown = some (pathJoin dir t.name)) := by
  refine ⟨?_, ?_, ?_, ?_, ?_⟩
  · simp [Transmission.get_download_path, h1]
  · simp [Transmission.get_download_path, h3]
  · simp [Libtorrent.get_download_path, h4]
  · intro hm
    simp [Libtorrent.get_download_path, h2, hm]
  · intro hm
    simp [Libtorrent.get_download_path, h2, hm]

/-- Witness for the amended C5 on concrete adapter states. -/
theorem get_download_path_characterised_witness :
    Transmission.get_download_path "/dl" [("h", 3)]
      (fun _ => { name := "n", numFiles := 1, hasMetadata := true }) "h" =
      some (pathJoin "/dl" ({ name := "n", numFiles := 1, hasMetadata := true } : TorrentMeta).name) ∧
    Transmission.get_download_path "/dl" [("h", 3)]
      (fun _ => { name := "n", numFiles := 1, hasMetadata := true }) "z" = none ∧
    Libtorrent.get_download_path "/dl"
      [("h", { name := "n", numFiles := 1, hasMetadata := true })] "z" = none ∧
    (({ name := "n", numFiles := 1, hasMetadata := true } : TorrentMeta).hasMetadata = false →
      Libtorrent.get_download_path "/dl"
        [("h", { name := "n", numFiles := 1, hasMetadata := true })] "h" = none) ∧
    (({ name := "n", numFiles := 1, hasMetadata := true } : TorrentMeta).hasMetadata = true →
      Libtorrent.get_download_path "/dl"
        [("h", { name := "n", numFiles := 1, hasMetadata := true })] "h" =
        some (pathJoin "/dl" ({ name := "n", numFiles := 1, hasMetadata := true } : TorrentMeta).name)) :=
  get_download_path_characterised "/dl" [("h", 3)]
    (fun _ => { name := "n", numFiles := 1, hasMetadata := true })
    [("h", { name := "n", numFiles := 1, hasMetadata := true })] "h" "z" 3
    { name := "n", numFiles := 1, hasMetadata := true }
    (by decide) (by decide) (by decide) (by decide)

theorem chunkSize_pos : 0 < chunkSize := by decide

theorem totalChunks_pos (F : Nat) (hF : 0 < F) : 1 ≤ totalChunks F := by
  unfold totalChunks chunkSize
  omega

theorem le_totalChunks_mul (F : Nat) : F ≤ totalChunks F * chunkSize := by
  unfold totalChunks chunkSize
  omega

theorem totalChunks_sub_one_mul_lt (F : Nat) (hF : 0 < F) :
    (totalChunks F - 1) * chunkSize < F := by
  unfold totalChunks chunkSize
  omega

theorem succ_mul_le_of_lt_totalChunks (F k : Nat) (h : k + 1 < totalChunks F) :
    (k + 1) * chunkSize ≤ F := by
  unfold totalChunks chunkSize at *
  omega

theorem putFor_nonfinal (F k : Nat) (h : k + 1 < totalChunks F) :
    putFor F k = { start := k * chunkSize, last := (k + 1) * chunkSize - 1,
                   contentLength := chunkSize } := by
  have hle : (k + 1) * chunkSize ≤ F := succ_mul_le_of_lt_totalChunks F k h
  have hmin : min F (k * chunkSize + chunkSize) = k * chunkSize + chunkSize := by
    apply min_eq_right
    unfold chunkSize at *
    omega
  rw [putFor, hmin]
  simp only [PutReq.mk.injEq]
  refine ⟨trivial, ?_, ?_⟩ <;> (unfold chunkSize; omega)

theorem putFor_final (F : Nat) (hF : 0 < F) :
    putFor F (totalChunks F - 1) =
      { start := (totalChunks F - 1) * chunkSize, last := F - 1,
        contentLength := F - (totalChunks F - 1) * chunkSize } := by
  have h1 : (totalChunks F - 1) * chunkSize < F := totalChunks_sub_one_mul_lt F hF
  have h2 : F ≤ (totalChunks F - 1) * chunkSize + chunkSize := by
    have h3 := le_totalChunks_mul F
    have h4 := totalChunks_pos F hF
    unfold totalChunks chunkSize at *
    omega
  have hmin : min F ((totalChunks F - 1) * chunkSize + chunkSize) = F := min_eq_left h2
  rw [putFor, hmin]
  simp only [PutReq.mk.injEq]
  refine ⟨trivial, trivial, ?_⟩
  omega

theorem chunkedLoop_fst_singleton (F : Nat) (resp : Nat → HttpResp) (a : Nat) :
    (chunkedLoop F resp [a]).1 = [putFor F a] := by
  unfold chunkedLoop
  dsimp only
  split
  · rfl
  · split
    · simp [chunkedLoop]
    · rfl

theorem chunkedLoop_fst_cons_202 (F : Nat) (resp : Nat → HttpResp) (n : Nat)
    (rest : List Nat) (h : (resp n).status = 202) :
    (chunkedLoop F resp (n :: rest)).1 = putFor F n :: (chunkedLoop F resp rest).1 := by
  simp only [chunkedLoop]
  simp [h]

theorem chunkedLoop_map_range' (F : Nat) (resp : Nat → HttpResp) :
    ∀ (n a : Nat), (∀ i, a ≤ i → i + 1 < a + n → (resp i).status = 202) →
      (chunkedLoop F resp (List.range' a n)).1 = (List.range' a n).map (putFor F) := by
  intro n
  induction n with
  | zero => intro a _; rfl
  | succ m ih =>
    intro a hall
    cases m with
    | zero =>
      have h1 : List.range' a 1 = [a] := rfl
      rw [h1, List.map_cons, List.map_nil]
      exact chunkedLoop_fst_singleton F resp a
    | succ k =>
      have ha : (resp a).status = 202 := hall a (le_refl a) (by omega)
      rw [List.range'_succ, List.map_cons, chunkedLoop_fst_cons_202 F resp a _ ha,
        ih (a + 1) (fun i h1 h2 => hall i (by omega) (by omega))]

theorem getLast?_map_range' (f : Nat → PutReq) :
    ∀ (n a : Nat), 0 < n →
      ((List.range' a n).map f).getLast? = some (f (a + n - 1)) := by
  intro n
  induction n with
  | zero => intro a h; omega
  | succ m ih =>
    intro a _
    cases m with
    | zero => simp [List.range'_succ]
    | succ k =>
      rw [List.range'_succ, List.map_cons, List.range'_succ, List.map_cons,
        List.getLast?_cons_cons, ← List.map_cons, ← List.range'_succ,
        ih (a + 1) (by omega)]
      have harg : a + 1 + (k + 1) - 1 = a + (k + 1 + 1) - 1 := by omega
      rw [harg]

theorem contiguousRanges_map_range' (f : Nat → PutReq) :
    ∀ (n a : Nat), (∀ j, a ≤ j → j + 1 < a + n → (f (j + 1)).start = (f j).last + 1) →
      contiguousRanges ((List.range' a n).map f) = true := by
  intro n
  induction n with
  | zero => intro a _; rfl
  | succ m ih =>
    intro a hall
    cases m with
    | zero => rfl
    | succ k =>
      rw [List.range'_succ, List.map_cons, List.range'_succ, List.map_cons]
      have h1 : (f (a + 1)).start = (f a).last + 1 := hall a (le_refl a) (by omega)
      have h2 : contiguousRanges (f (a + 1) :: (List.range' (a + 1 + 1) k).map f) = true := by
        rw [← List.map_cons, ← List.range'_succ]
        exact ih (a + 1) (fun j hj1 hj2 => hall j (by omega) (by omega))
      simp only [contiguousRanges, h1, h2]
      simp

theorem increasingStarts_map_range' (f : Nat → PutReq) :
    ∀ (n a : Nat), (∀ j, a ≤ j → j + 1 < a + n → (f j).start < (f (j + 1)).start) →
      increasingStarts ((List.range' a n).map f) = true := by
  intro n
  induction n with
  | zero => intro a _; rfl
  | succ m ih =>
    intro a hall
    cases m with
    | zero => rfl
    | succ k =>
      rw [List.range'_succ, List.map_cons, List.range'_succ, List.map_cons]
      have h1 : (f a).start < (f (a + 1)).start := hall a (le_refl a) (by omega)
      have h2 : increasingStarts (f (a + 1) :: (List.range' (a + 1 + 1) k).map f) = true := by
        rw [← List.map_cons, ← List.range'_succ]
        exact ih (a + 1) (fun j hj1 hj2 => hall j (by omega) (by omega))
      simp only [increasingStarts, h2]
      simp [h1]

/-- C3: with the session created and every non-final chunk answered 202, the
chunk loop issues exactly ceil(F / C) range-addressed PUTs (C = 10 MiB), the
PUT for chunk k covers bytes k*C through min(F, k*C + C) - 1, the final chunk
carries F - (ceil(F/C) - 1)*C bytes, and the Content-Range intervals are
strictly increasing, contiguous, and exactly cover bytes 0 through F - 1
(scripts/onedrive_uploader.py lines 356-378). -/
theorem chunked_upload_chunk_math (F : Nat) (sess : HttpResp) (resp : Nat → HttpResp)
    (hF : 0 < F) (hsess : sess.status = 200)
    (h202 : ∀ i < totalChunks F - 1, (resp i).status = 202) :
    (chunked_upload sess F resp).1 = (List.range (totalChunks F)).map (putFor F) ∧
    (chunked_upload sess F resp).1.length = (F + chunkSize - 1) / chunkSize ∧
    coversExactly F (chunked_upload sess F resp).1 = true ∧
    increasingStarts (chunked_upload sess F resp).1 = true ∧
    ((chunked_upload sess F resp).1.getLast?).map PutReq.contentLength =
      some (F - (totalChunks F - 1) * chunkSize) := by
  have hmain : (chunked_upload sess F resp).1 =
      (List.range' 0 (totalChunks F)).map (putFor F) := by
    rw [chunked_upload, if_neg (by simp [hsess]), List.range_eq_range']
    exact chunkedLoop_map_range' F resp (totalChunks F) 0
      (fun i h1 h2 => h202 i (by omega))
  have ht1 : 1 ≤ totalChunks F := totalChunks_pos F hF
  obtain ⟨m, hm⟩ : ∃ m, totalChunks F = m + 1 := ⟨totalChunks F - 1, by omega⟩
  have hmeq : totalChunks F - 1 = m := by omega
  have hfin := putFor_final F hF
  rw [hmeq] at hfin
  have hadj : ∀ j, 0 ≤ j → j + 1 < 0 + totalChunks F →
      (putFor F (j + 1)).start = (putFor F j).last + 1 := by
    intro j _ hj
    have hj' : j + 1 < totalChunks F := by omega
    have h1 : (putFor F (j + 1)).start = (j + 1) * chunkSize := rfl
    have h2 : (putFor F j).last = (j + 1) * chunkSize - 1 := by
      rw [putFor_nonfinal F j hj']
    rw [h1, h2]
    unfold chunkSize
    omega
  have hlast : ((List.range' 0 (totalChunks F)).map (putFor F)).getLast? =
      some (putFor F m) := by
    rw [getLast?_map_range' (putFor F) (totalChunks F) 0 (by omega)]
    have harg : 0 + totalChunks F - 1 = m := by omega
    rw [harg]
  have hcontig : contiguousRanges ((List.range' 0 (totalChunks F)).map (putFor F)) = true :=
    contiguousRanges_map_range' (putFor F) (totalChunks F) 0 hadj
  have hall : ((List.range' 0 (totalChunks F)).map (putFor F)).all
      (fun p => (decide (p.start ≤ p.last)) && p.contentLength == p.last - p.start + 1) = true := by
    rw [List.all_eq_true]
    intro p hp
    rw [List.mem_map] at hp
    obtain ⟨i, hi, hpi⟩ := hp
    rw [List.mem_range'_1] at hi
    have h1 : i * chunkSize < F := by
      have h2 : i ≤ totalChunks F - 1 := by omega
      have h3 : i * chunkSize ≤ (totalChunks F - 1) * chunkSize :=
        Nat.mul_le_mul_right _ h2
      have h4 := totalChunks_sub_one_mul_lt F hF
      omega
    have hc := chunkSize_pos
    have hse : (putFor F i).start ≤ (putFor F i).last := by
      rw [putFor]
      simp only
      rcases Nat.le_total F (i * chunkSize + chunkSize) with h | h
      · rw [min_eq_left h]; omega
      · rw [min_eq_right h]; omega
    have hcl : (putFor F i).contentLength = (putFor F i).last - (putFor F i).start + 1 := rfl
    rw [← hpi]
    simp [hse, hcl]
  have hstart0 : (putFor F 0).start = 0 := by
    have : (putFor F 0).start = 0 * chunkSize := rfl
    omega
  have hlastval : (putFor F m).last + 1 = F := by
    rw [hfin]
    dsimp only
    omega
  have hcons : (List.range' 0 (totalChunks F)).map (putFor F) =
      putFor F 0 :: (List.range' 1 m).map (putFor F) := by
    rw [hm, List.range'_succ, List.map_cons]
  refine ⟨?_, ?_, ?_, ?_, ?_⟩
  · rw [hmain, List.range_eq_range']
  · rw [hmain, List.length_map, List.length_range']
    rfl
  · rw [hmain, hcons]
    simp only [coversExactly, Bool.and_eq_true]
    refine ⟨⟨⟨?_, ?_⟩, ?_⟩, ?_⟩
    · simp [hstart0]
    · rw [← hcons, hlast]
      simp [hlastval]
    · rw [← hcons]
      exact hcontig
    · rw [← hcons]
      exact hall
  · rw [hmain]
    apply increasingStarts_map_range'
    intro j _ hj
    have h1 : (putFor F j).start = j * chunkSize := rfl
    have h2 : (putFor F (j + 1)).start = (j + 1) * chunkSize := rfl
    rw [h1, h2]
    unfold chunkSize
    omega
  · rw [hmain, hlast]
    simp only [Option.map_some']
    rw [hmeq, hfin]

/-- Witness for C3: a file of two full chunks plus five bytes. -/
theorem chunked_upload_chunk_math_witness :
    (chunked_upload sessOk (2 * chunkSize + 5) resp202).1 =
      (List.range (totalChunks (2 * chunkSize + 5))).map (putFor (2 * chunkSize + 5)) ∧
    (chunked_upload sessOk (2 * chunkSize + 5) resp202).1.length =
      (2 * chunkSize + 5 + chunkSize - 1) / chunkSize ∧
    coversExactly (2 * chunkSize + 5) (chunked_upload sessOk (2 * chunkSize + 5) resp202).1 = true ∧
    increasingStarts (chunked_upload sessOk (2 * chunkSize + 5) resp202).1 = true ∧
    ((chunked_upload sessOk (2 * chunkSize + 5) resp202).1.getLast?).map PutReq.contentLength =
      some (2 * chunkSize + 5 - (totalChunks (2 * chunkSize + 5) - 1) * chunkSize) :=
  chunked_upload_chunk_math (2 * chunkSize + 5) sessOk resp202
    (by decide) (by decide) (by decide)

theorem map_keep_of_not_mem (k : String) (v : Task) :
    ∀ (l : List (String × Task)), k ∉ l.map Prod.fst →
      l.map (fun p => if p.1 == k then (k, v) else p) = l := by
  intro l
  induction l with
  | nil => intro _; rfl
  | cons p rest ih =>
    intro h
    simp only [List.map_cons, List.mem_cons] at h
    push_neg at h
    obtain ⟨h1, h2⟩ := h
    have hb : ¬ ((p.1 == k) = true) := by
      simp only [beq_iff_eq]
      exact Ne.symm h1
    simp only [List.map_cons, if_neg hb]
    rw [ih h2]

theorem filter_keep_of_not_mem (k : String) :
    ∀ (l : List (String × Task)), k ∉ l.map Prod.fst →
      l.filter (fun p => p.1 != k) = l := by
  intro l
  induction l with
  | nil => intro _; rfl
  | cons p rest ih =>
    intro h
    simp only [List.map_cons, List.mem_cons] at h
    push_neg at h
    obtain ⟨h1, h2⟩ := h
    have hb : (p.1 != k) = true := bne_iff_ne.mpr (Ne.symm h1)
    simp [List.filter_cons, hb, ih h2]

theorem dictInsert_fresh (d : List (String × Task)) (k : String) (v : Task)
    (h : k ∉ d.map Prod.fst) : dictInsert d k v = d ++ [(k, v)] := by
  have hc : ¬ (d.any (fun p => p.1 == k) = true) := by
    rw [List.any_eq_true]
    rintro ⟨p, hp, hpk⟩
    rw [beq_iff_eq] at hpk
    exact h (List.mem_map.mpr ⟨p, hp, hpk⟩)
  rw [dictInsert, if_neg hc]

theorem dictInsert_split (pre post : List (String × Task)) (k : String) (t v : Task)
    (h1 : k ∉ pre.map Prod.fst) (h2 : k ∉ post.map Prod.fst) :
    dictInsert (pre ++ (k, t) :: post) k v = pre ++ (k, v) :: post := by
  have hc : (pre ++ (k, t) :: post).any (fun p => p.1 == k) = true := by
    rw [List.any_eq_true]
    exact ⟨(k, t), by simp, by simp⟩
  rw [dictInsert, if_pos hc, List.map_append, List.map_cons,
    map_keep_of_not_mem k v pre h1, map_keep_of_not_mem k v post h2]
  simp

theorem dictDelete_split (pre post : List (String × Task)) (k : String) (t : Task)
    (h1 : k ∉ pre.map Prod.fst) (h2 : k ∉ post.map Prod.fst) :
    dictDelete (pre ++ (k, t) :: post) k = pre ++ post := by
  have hb : ((k, t).1 != k) = false := by simp
  rw [dictDelete, List.filter_append, List.filter_cons, hb,
    filter_keep_of_not_mem k pre h1, filter_keep_of_not_mem k post h2]
  simp

theorem nodup_keys_split (pre post : List (String × Task)) (k : String) (t : Task)
    (h : ((pre ++ (k, t) :: post).map Prod.fst).Nodup) :
    k ∉ pre.map Prod.fst ∧ k ∉ post.map Prod.fst ∧
      ((pre ++ post).map Prod.fst).Nodup := by
  rw [List.map_append, List.map_cons, List.nodup_append] at h
  obtain ⟨hpre, hkpost, hdisj⟩ := h
  rw [List.nodup_cons] at hkpost
  refine ⟨fun hk => hdisj hk (List.mem_cons_self _ _), hkpost.1, ?_⟩
  rw [List.map_append, List.nodup_append]
  exact ⟨hpre, hkpost.2, fun a ha hb => hdisj ha (List.mem_cons_of_mem _ hb)⟩

theorem dispatch_fold (add : String → Except String String) (now : Nat) :
    ∀ (snap : List Task) (ts : Tasks) (n : Nat),
      ts.pending = snap → snap.Nodup →
      snap.foldl (dispatchOne add now) (ts, n) =
        ({ pending := [], downloading := insertAll add now snap ts.downloading,
           completed := ts.completed, failed := ts.failed ++ errTasks add snap },
         n + snap.length) := by
  intro snap
  induction snap with
  | nil =>
    intro ts n hp _
    obtain ⟨p, d, c, f⟩ := ts
    dsimp only at hp
    subst hp
    simp [insertAll, errTasks]
  | cons t rest ih =>
    intro ts n hp hnd
    obtain ⟨p, d, c, f⟩ := ts
    dsimp only at hp
    subst hp
    rw [List.foldl_cons]
    cases hadd : add t.source with
    | ok h =>
      have hstep : dispatchOne add now (Tasks.mk (t :: rest) d c f, n) t =
          (Tasks.mk rest (dictInsert d h (dlTask now t)) c f, n + 1) := by
        simp [dispatchOne, hadd, List.erase_cons_head]
      rw [hstep, ih _ _ rfl (List.Nodup.of_cons hnd)]
      refine Prod.ext ?_ ?_
      · simp only [insertAll, errTasks, List.foldl_cons, List.filterMap_cons, hadd]
      · simp only [List.length_cons]
        omega
    | error e =>
      have hstep : dispatchOne add now (Tasks.mk (t :: rest) d c f, n) t =
          (Tasks.mk rest d c (f ++ [{ t with error := some e }]), n + 1) := by
        simp [dispatchOne, hadd, List.erase_cons_head]
      rw [hstep, ih _ _ rfl (List.Nodup.of_cons hnd)]
      refine Prod.ext ?_ ?_
      · simp only [insertAll, errTasks, List.foldl_cons, List.filterMap_cons, hadd]
        simp [List.append_assoc]
      · simp only [List.length_cons]
        omega

theorem insertAll_fresh (add : String → Except String String) (now : Nat) :
    ∀ (snap : List Task) (d : List (String × Task)),
      (snap.filterMap (okHash add)).Nodup →
      (∀ h ∈ snap.filterMap (okHash add), h ∉ d.map Prod.fst) →
      insertAll add now snap d = d ++ okEntries add now snap := by
  intro snap
  induction snap with
  | nil => intro d _ _; simp [insertAll, okEntries]
  | cons t rest ih =>
    intro d hnd hdis
    cases hadd : add t.source with
    | error e =>
      have hcons : (t :: rest).filterMap (okHash add) = rest.filterMap (okHash add) := by
        simp [List.filterMap_cons, okHash, hadd, Except.toOption]
      rw [hcons] at hnd hdis
      have ih' := ih d hnd hdis
      simp only [insertAll, List.foldl_cons, hadd] at ih' ⊢
      rw [ih']
      simp [okEntries, List.filterMap_cons, hadd]
    | ok h =>
      have hcons : (t :: rest).filterMap (okHash add) =
          h :: rest.filterMap (okHash add) := by
        simp [List.filterMap_cons, okHash, hadd, Except.toOption]
      rw [hcons] at hnd hdis
      rw [List.nodup_cons] at hnd
      have hfresh : h ∉ d.map Prod.fst := hdis h (List.mem_cons_self _ _)
      have hdis' : ∀ h2 ∈ rest.filterMap (okHash add),
          h2 ∉ (d ++ [(h, dlTask now t)]).map Prod.fst := by
        intro h2 hh2
        rw [List.map_append]
        simp only [List.mem_append, List.map_cons, List.map_nil, List.mem_singleton]
        push_neg
        refine ⟨hdis h2 (List.mem_cons_of_mem _ hh2), ?_⟩
        intro he
        exact hnd.1 (he ▸ hh2)
      have ih' := ih (d ++ [(h, dlTask now t)]) hnd.2 hdis'
      simp only [insertAll, List.foldl_cons, hadd] at ih' ⊢
      rw [dictInsert_fresh d h (dlTask now t) hfresh, ih']
      simp [okEntries, List.filterMap_cons, hadd, List.append_assoc]

theorem process_pending_spec (add : String → Except String String) (now : Nat)
    (ts : Tasks) (hnd : ts.pending.Nodup)
    (hhash : (ts.pending.filterMap (okHash add)).Nodup)
    (hdis : ∀ h ∈ ts.pending.filterMap (okHash add), h ∉ ts.downloading.map Prod.fst) :
    (process_pending_tasks add now ts).1 =
      { pending := [], downloading := ts.downloading ++ okEntries add now ts.pending,
        completed := ts.completed, failed := ts.failed ++ errTasks add ts.pending } ∧
    (process_pending_tasks add now ts).2 = ts.pending.length := by
  rw [process_pending_tasks, dispatch_fold add now ts.pending ts 0 rfl hnd]
  constructor
  · dsimp only
    rw [insertAll_fresh add now ts.pending ts.downloading hhash hdis]
  · dsimp only
    omega

theorem count_ok_err (add : String → Except String String) (now : Nat) (s : String) :
    ∀ (snap : List Task),
      ((okEntries add now snap).map (fun p => p.2.source)).count s +
      ((errTasks add snap).map Task.source).count s =
      (snap.map Task.source).count s := by
  intro snap
  induction snap with
  | nil => simp [okEntries, errTasks]
  | cons t rest ih =>
    cases hadd : add t.source with
    | ok h =>
      simp only [okEntries, errTasks, List.filterMap_cons, hadd, List.map_cons,
        List.count_cons, dlTask] at ih ⊢
      split <;> omega
    | error e =>
      simp only [okEntries, errTasks, List.filterMap_cons, hadd, List.map_cons,
        List.count_cons] at ih ⊢
      split <;> omega

theorem occurrences_process_pending (add : String → Except String String) (now : Nat)
    (ts : Tasks) (s : String) (hnd : ts.pending.Nodup)
    (hhash : (ts.pending.filterMap (okHash add)).Nodup)
    (hdis : ∀ h ∈ ts.pending.filterMap (okHash add), h ∉ ts.downloading.map Prod.fst) :
    occurrences (process_pending_tasks add now ts).1 s = occurrences ts s := by
  obtain ⟨hspec, -⟩ := process_pending_spec add now ts hnd hhash hdis
  rw [hspec]
  have hc := count_ok_err add now s ts.pending
  simp only [occurrences, sourcesList, List.map_append, List.count_append,
    List.map_nil, List.count_nil]
  omega

theorem completedTask_source (env : Env) (ih : String) (task : Task) (st : TorrentStatus) :
    (completedTask env ih task st).source = task.source := by
  unfold completedTask
  cases env.getDownloadPath ih <;> simp

theorem completedTask_completeTime (env : Env) (ih : String) (task : Task)
    (st : TorrentStatus) :
    (completedTask env ih task st).completeTime = some env.now := by
  unfold completedTask
  cases env.getDownloadPath ih <;> simp

theorem completedTask_eq_of_path (env : Env) (ih : String) (task : Task)
    (st : TorrentStatus) (p : String) (hp : env.getDownloadPath ih = some p) :
    completedTask env ih task st =
      { task with
        status := some st,
        uploadResult := some (if env.isDir p then UploadResult.folder (env.uploadFolder p)
          else UploadResult.file (env.uploadFile p)),
        completeTime := some env.now } := by
  unfold completedTask
  rw [hp]

theorem check_fold (env : Env) :
    ∀ (snap pre : List (String × Task)) (ts : Tasks),
      ts.downloading = pre ++ snap →
      ((pre ++ snap).map Prod.fst).Nodup →
      snap.foldl (fun acc p => checkOne env acc p.1 p.2) ts =
        { pending := ts.pending,
          downloading := pre ++ snap.filterMap (pollStay env),
          completed := ts.completed ++ snap.filterMap (pollMove env),
          failed := ts.failed } := by
  intro snap
  induction snap with
  | nil =>
    intro pre ts h1 _
    obtain ⟨p, d, c, f⟩ := ts
    dsimp only at h1
    subst h1
    simp
  | cons hd tl ih =>
    intro pre ts h1 h2
    obtain ⟨ihash, task⟩ := hd
    obtain ⟨p, d, c, f⟩ := ts
    dsimp only at h1
    subst h1
    obtain ⟨hk1, hk2, hk3⟩ := nodup_keys_split pre tl ihash task h2
    rw [List.foldl_cons]
    cases hst : env.getStatus ihash with
    | error msg =>
      have hone : checkOne env (Tasks.mk p (pre ++ (ihash, task) :: tl) c f) ihash task =
          Tasks.mk p (pre ++ (ihash, task) :: tl) c f := by
        simp [checkOne, hst]
      rw [hone]
      have ih' := ih (pre ++ [(ihash, task)]) (Tasks.mk p (pre ++ (ihash, task) :: tl) c f)
        (by simp) (by simpa using h2)
      rw [ih']
      have hstay : pollStay env (ihash, task) = some (ihash, task) := by
        simp [pollStay, hst]
      have hmove : pollMove env (ihash, task) = none := by
        simp [pollMove, hst]
      simp [List.filterMap_cons, hstay, hmove]
    | ok st =>
      cases hfin : st.isFinished with
      | false =>
        have hone : checkOne env (Tasks.mk p (pre ++ (ihash, task) :: tl) c f) ihash task =
            Tasks.mk p (pre ++ (ihash, { task with status := some st }) :: tl) c f := by
          simp only [checkOne, hst]
          rw [dictInsert_split pre tl ihash task { task with status := some st } hk1 hk2]
          simp [hfin]
        rw [hone]
        have ih' := ih (pre ++ [(ihash, { task with status := some st })])
          (Tasks.mk p (pre ++ (ihash, { task with status := some st }) :: tl) c f)
          (by simp) (by simpa using h2)
        rw [ih']
        have hstay : pollStay env (ihash, task) = some (ihash, { task with status := some st }) := by
          simp [pollStay, hst, hfin]
        have hmove : pollMove env (ihash, task) = none := by
          simp [pollMove, hst, hfin]
        simp [List.filterMap_cons, hstay, hmove]
      | true =>
        have hone : checkOne env (Tasks.mk p (pre ++ (ihash, task) :: tl) c f) ihash task =
            Tasks.mk p (pre ++ tl) (c ++ [completedTask env ihash task st]) f := by
          simp only [checkOne, hst, hfin, completedTask, if_true]
          rw [dictInsert_split pre tl ihash task { task with status := some st } hk1 hk2,
            dictDelete_split pre tl ihash { task with status := some st } hk1 hk2]
        rw [hone]
        have ih' := ih pre
          (Tasks.mk p (pre ++ tl) (c ++ [completedTask env ihash task st]) f) rfl hk3
        rw [ih']
        have hstay : pollStay env (ihash, task) = none := by
          simp [pollStay, hst, hfin]
        have hmove : pollMove env (ihash, task) = some (completedTask env ihash task st) := by
          simp [pollMove, hst, hfin]
        simp [List.filterMap_cons, hstay, hmove, List.append_assoc]

theorem check_downloads_spec (env : Env) (ts : Tasks)
    (hkeys : (ts.downloading.map Prod.fst).Nodup) :
    check_downloads env ts =
      { pending := ts.pending,
        downloading := ts.downloading.filterMap (pollStay env),
        completed := ts.completed ++ ts.downloading.filterMap (pollMove env),
        failed := ts.failed } := by
  rw [check_downloads]
  have h := check_fold env ts.downloading [] ts (by simp) (by simpa using hkeys)
  simpa using h

theorem count_poll (env : Env) (s : String) :
    ∀ (snap : List (String × Task)),
      ((snap.filterMap (pollStay env)).map (fun p => p.2.source)).count s +
      ((snap.filterMap (pollMove env)).map Task.source).count s =
      (snap.map (fun p => p.2.source)).count s := by
  intro snap
  induction snap with
  | nil => simp
  | cons hd tl ih =>
    obtain ⟨ihash, task⟩ := hd
    cases hst : env.getStatus ihash with
    | error msg =>
      have hstay : pollStay env (ihash, task) = some (ihash, task) := by
        simp [pollStay, hst]
      have hmove : pollMove env (ihash, task) = none := by
        simp [pollMove, hst]
      simp only [List.filterMap_cons, hstay, hmove, List.map_cons, List.count_cons] at ih ⊢
      omega
    | ok st =>
      cases hfin : st.isFinished with
      | false =>
        have hstay : pollStay env (ihash, task) =
            some (ihash, { task with status := some st }) := by
          simp [pollStay, hst, hfin]
        have hmove : pollMove env (ihash, task) = none := by
          simp [pollMove, hst, hfin]
        simp only [List.filterMap_cons, hstay, hmove, List.map_cons, List.count_cons] at ih ⊢
        omega
      | true =>
        have hstay : pollStay env (ihash, task) = none := by
          simp [pollStay, hst, hfin]
        have hmove : pollMove env (ihash, task) = some (completedTask env ihash task st) := by
          simp [pollMove, hst, hfin]
        have hsrc := completedTask_source env ihash task st
        simp only [List.filterMap_cons, hstay, hmove, List.map_cons, List.count_cons,
          hsrc] at ih ⊢
        omega

theorem occurrences_check_downloads (env : Env) (ts : Tasks) (s : String)
    (hkeys : (ts.downloading.map Prod.fst).Nodup) :
    occurrences (check_downloads env ts) s = occurrences ts s := by
  rw [check_downloads_spec env ts hkeys]
  have hc := count_poll env s ts.downloading
  simp only [occurrences, sourcesList, List.map_append, List.count_append]
  omega

theorem any_source_eq_count (l : List Task) (s : String) :
    l.any (fun t => t.source == s) = true ↔ 0 < (l.map Task.source).count s := by
  rw [List.any_eq_true, List.count_pos_iff]
  simp [List.mem_map, beq_iff_eq]

theorem any_source2_eq_count (l : List (String × Task)) (s : String) :
    l.any (fun p => p.2.source == s) = true ↔
      0 < (l.map (fun p => p.2.source)).count s := by
  rw [List.any_eq_true, List.count_pos_iff]
  constructor
  · rintro ⟨p, hp, hps⟩
    rw [beq_iff_eq] at hps
    exact List.mem_map.mpr ⟨p, hp, hps⟩
  · rintro h
    obtain ⟨p, hp, hps⟩ := List.mem_map.mp h
    exact ⟨p, hp, beq_iff_eq.mpr hps⟩

theorem pending_nodup_of_wf (ts : Tasks) (hwf : (sourcesList ts).Nodup) :
    ts.pending.Nodup := by
  have h1 : (ts.pending.map Task.source).Nodup := by
    simp only [sourcesList] at hwf
    exact ((hwf.of_append_left).of_append_left).of_append_left
  exact h1.of_map

theorem wf_of_occ_eq (ts ts' : Tasks) (hwf : (sourcesList ts).Nodup)
    (h : ∀ a, occurrences ts' a = occurrences ts a) : (sourcesList ts').Nodup := by
  rw [List.nodup_iff_count_le_one] at hwf ⊢
  intro a
  have h1 := h a
  simp only [occurrences] at h1
  rw [h1]
  exact hwf a

theorem add_task_state (ts : Tasks) (src : String) (now : Nat) :
    (add_task ts src now).2.1.downloading = ts.downloading ∧
    (add_task ts src now).2.1.completed = ts.completed ∧
    (add_task ts src now).2.1.failed = ts.failed := by
  rw [add_task]
  split <;> simp

theorem wf_add_task (ts : Tasks) (src : String) (now : Nat)
    (hwf : (sourcesList ts).Nodup) :
    (sourcesList (add_task ts src now).2.1).Nodup := by
  by_cases hdup : sourceInBuckets ts src = true
  · simp [add_task, hdup, hwf]
  · have hb : sourceInBuckets ts src = false := by
      revert hdup
      cases sourceInBuckets ts src <;> simp
    have hz : occurrences ts src = 0 := (occurrences_eq_zero_iff ts src).mpr hb
    rw [add_task, if_neg (by simp [hb])]
    dsimp only
    rw [List.nodup_iff_count_le_one] at hwf ⊢
    intro a
    have hocc := hwf a
    by_cases ha : a = src
    · subst ha
      simp only [occurrences] at hz
      simp only [sourcesList, List.map_append, List.count_append, List.map_cons,
        List.map_nil, mkPendingTask, List.count_cons, List.count_nil] at hz ⊢
      simp only [beq_self_eq_true, if_pos]
      omega
    · have hsa : (src == a) = false := beq_eq_false_iff_ne.mpr (Ne.symm ha)
      simp only [sourcesList, List.map_append, List.count_append, List.map_cons,
        List.map_nil, mkPendingTask, List.count_cons, List.count_nil, hsa,
        Bool.false_eq_true, if_false] at hocc ⊢
      omega

/-- C2: under well-formed collaborator behaviour (distinct fresh info hashes,
distinct downloading keys), every lifecycle operation preserves the invariant
that each task record occupies exactly one bucket, and the buckets only move
forward: add_task touches no existing bucket, process_pending_tasks empties
pending into downloading or failed without touching completed, and
check_downloads moves downloading tasks only into completed, leaving pending
and failed untouched; no task returns to pending or downloading after
reaching completed or failed (main.py lines 82-191). -/
theorem lifecycle_monotonic (ts : Tasks) (src s : String) (now : Nat)
    (add : String → Except String String) (env : Env)
    (hwf : (sourcesList ts).Nodup)
    (hhash : (ts.pending.filterMap (okHash add)).Nodup)
    (hdis : ∀ h ∈ ts.pending.filterMap (okHash add), h ∉ ts.downloading.map Prod.fst)
    (hkeys : (ts.downloading.map Prod.fst).Nodup) :
    (sourcesList (add_task ts src now).2.1).Nodup ∧
    (add_task ts src now).2.1.downloading = ts.downloading ∧
    (add_task ts src now).2.1.completed = ts.completed ∧
    (add_task ts src now).2.1.failed = ts.failed ∧
    occurrences (process_pending_tasks add now ts).1 s = occurrences ts s ∧
    (sourcesList (process_pending_tasks add now ts).1).Nodup ∧
    (process_pending_tasks add now ts).1.pending = [] ∧
    (process_pending_tasks add now ts).1.completed = ts.completed ∧
    (process_pending_tasks add now ts).1.downloading =
      ts.downloading ++ okEntries add now ts.pending ∧
    (process_pending_tasks add now ts).1.failed = ts.failed ++ errTasks add ts.pending ∧
    (inCompleted ts s = true →
      inPending (process_pending_tasks add now ts).1 s = false ∧
      inDownloading (process_pending_tasks add now ts).1 s = false) ∧
    (inFailed ts s = true →
      inPending (process_pending_tasks add now ts).1 s = false ∧
      inDownloading (process_pending_tasks add now ts).1 s = false) ∧
    occurrences (check_downloads env ts) s = occurrences ts s ∧
    (sourcesList (check_downloads env ts)).Nodup ∧
    (check_downloads env ts).pending = ts.pending ∧
    (check_downloads env ts).failed = ts.failed ∧
    (check_downloads env ts).completed =
      ts.completed ++ ts.downloading.filterMap (pollMove env) ∧
    (check_downloads env ts).downloading = ts.downloading.filterMap (pollStay env) ∧
    (inCompleted ts s = true → inDownloading (check_downloads env ts) s = false) ∧
    (inFailed ts s = true → inDownloading (check_downloads env ts) s = false) ∧
    (inDownloading (check_downloads env ts) s = true → inDownloading ts s = true) := by
  have hndp : ts.pending.Nodup := pending_nodup_of_wf ts hwf
  obtain ⟨hppspec, hppsaves⟩ := process_pending_spec add now ts hndp hhash hdis
  have hocc_pp := fun a => occurrences_process_pending add now ts a hndp hhash hdis
  have hcdspec := check_downloads_spec env ts hkeys
  have hocc_cd := fun a => occurrences_check_downloads env ts a hkeys
  have hwfc := fun a => List.nodup_iff_count_le_one.mp hwf a
  have hppdown : inDownloading (process_pending_tasks add now ts).1 s = true →
      inCompleted ts s = false ∧ inFailed ts s = false := by
    intro hd
    rw [hppspec] at hd
    simp only [inDownloading] at hd
    rw [any_source2_eq_count] at hd
    have hoe := count_ok_err add now s ts.pending
    have hw := hwfc s
    simp only [sourcesList, List.count_append, List.map_append] at hw hd
    constructor
    · cases hc : inCompleted ts s with
      | false => rfl
      | true =>
        exfalso
        rw [inCompleted, any_source_eq_count] at hc
        omega
    · cases hc : inFailed ts s with
      | false => rfl
      | true =>
        exfalso
        rw [inFailed, any_source_eq_count] at hc
        omega
  have hcddown : inDownloading (check_downloads env ts) s = true →
      inDownloading ts s = true := by
    intro hd
    rw [hcdspec] at hd
    simp only [inDownloading] at hd
    rw [any_source2_eq_count] at hd
    have hcp := count_poll env s ts.downloading
    rw [inDownloading, any_source2_eq_count]
    omega
  refine ⟨wf_add_task ts src now hwf, (add_task_state ts src now).1,
    (add_task_state ts src now).2.1, (add_task_state ts src now).2.2,
    hocc_pp s, wf_of_occ_eq ts _ hwf hocc_pp, ?_, ?_, ?_, ?_, ?_, ?_,
    hocc_cd s, wf_of_occ_eq ts _ hwf hocc_cd, ?_, ?_, ?_, ?_, ?_, ?_, hcddown⟩
  · rw [hppspec]
  · rw [hppspec]
  · rw [hppspec]
  · rw [hppspec]
  · intro hc
    constructor
    · rw [hppspec]
      rfl
    · cases hd : inDownloading (process_pending_tasks add now ts).1 s with
      | false => rfl
      | true => rw [(hppdown hd).1] at hc; cases hc
  · intro hc
    constructor
    · rw [hppspec]
      rfl
    · cases hd : inDownloading (process_pending_tasks add now ts).1 s with
      | false => rfl
      | true => rw [(hppdown hd).2] at hc; cases hc
  · rw [hcdspec]
  · rw [hcdspec]
  · rw [hcdspec]
  · rw [hcdspec]
  · intro hc
    cases hd : inDownloading (check_downloads env ts) s with
    | false => rfl
    | true =>
      exfalso
      have hdt := hcddown hd
      rw [inDownloading, any_source2_eq_count] at hdt
      rw [inCompleted, any_source_eq_count] at hc
      have hw := hwfc s
      simp only [sourcesList, List.count_append, List.map_append] at hw
      omega
  · intro hc
    cases hd : inDownloading (check_downloads env ts) s with
    | false => rfl
    | true =>
      exfalso
      have hdt := hcddown hd
      rw [inDownloading, any_source2_eq_count] at hdt
      rw [inFailed, any_source_eq_count] at hc
      have hw := hwfc s
      simp only [sourcesList, List.count_append, List.map_append] at hw
      omega

/-- Witness for C2 on a concrete mixed store. -/
theorem lifecycle_monotonic_witness :
    occurrences (process_pending_tasks addFn 7 tsMix).1 "m1" = occurrences tsMix "m1" ∧
    occurrences (check_downloads envFin tsMix) "m1" = occurrences tsMix "m1" ∧
    (sourcesList (check_downloads envFin tsMix)).Nodup := by
  have h := lifecycle_monotonic tsMix "new" "m1" 7 addFn envFin
    (by decide) (by decide) (by decide) (by decide)
  exact ⟨h.2.2.2.2.1, h.2.2.2.2.2.2.2.2.2.2.2.2.1, h.2.2.2.2.2.2.2.2.2.2.2.2.2.1⟩

theorem key_unique (d : List (String × Task)) (k : String) (a b : Task)
    (hnd : (d.map Prod.fst).Nodup) (h1 : (k, a) ∈ d) (h2 : (k, b) ∈ d) : a = b := by
  induction d with
  | nil => cases h1
  | cons hd tl ih =>
    rw [List.map_cons, List.nodup_cons] at hnd
    rcases List.mem_cons.mp h1 with e1 | m1
    · rcases List.mem_cons.mp h2 with e2 | m2
      · have he := e1.trans e2.symm
        exact congrArg Prod.snd he
      · exfalso
        apply hnd.1
        rw [← e1]
        exact List.mem_map.mpr ⟨(k, b), m2, rfl⟩
    · rcases List.mem_cons.mp h2 with e2 | m2
      · exfalso
        apply hnd.1
        rw [← e2]
        exact List.mem_map.mpr ⟨(k, a), m1, rfl⟩
      · exact ih hnd.2 m1 m2

theorem pollStay_key (env : Env) (r q : String × Task)
    (h : pollStay env r = some q) : q.1 = r.1 := by
  obtain ⟨r1, r2⟩ := r
  unfold pollStay at h
  cases hst : env.getStatus r1 with
  | error m =>
    rw [hst] at h
    simp only [Option.some.injEq] at h
    rw [← h]
  | ok st =>
    rw [hst] at h
    dsimp only at h
    by_cases hf : st.isFinished = true
    · rw [if_pos hf] at h
      cases h
    · rw [if_neg hf] at h
      simp only [Option.some.injEq] at h
      rw [← h]

/-- C4: a downloading task whose poll reports finished and whose artifact
path resolves is appended to completed with complete_time set and the upload
result recorded on it, whatever that result is (in particular an error
result), its key is removed from downloading, and the failed bucket is left
untouched (main.py lines 158-188). -/
theorem finished_download_completes (env : Env) (ts : Tasks) (ih : String)
    (task : Task) (st : TorrentStatus) (p : String)
    (hkeys : (ts.downloading.map Prod.fst).Nodup)
    (hmem : (ih, task) ∈ ts.downloading)
    (hok : env.getStatus ih = .ok st)
    (hfin : st.isFinished = true)
    (hpath : env.getDownloadPath ih = some p) :
    completedTask env ih task st ∈ (check_downloads env ts).completed ∧
    (completedTask env ih task st).completeTime = some env.now ∧
    (completedTask env ih task st).uploadResult =
      some (if env.isDir p then UploadResult.folder (env.uploadFolder p)
        else UploadResult.file (env.uploadFile p)) ∧
    ih ∉ (check_downloads env ts).downloading.map Prod.fst ∧
    (check_downloads env ts).failed = ts.failed := by
  have hspec := check_downloads_spec env ts hkeys
  have hmove : pollMove env (ih, task) = some (completedTask env ih task st) := by
    simp [pollMove, hok, hfin]
  have hstaynone : pollStay env (ih, task) = none := by
    simp [pollStay, hok, hfin]
  refine ⟨?_, completedTask_completeTime env ih task st, ?_, ?_, ?_⟩
  · rw [hspec]
    dsimp only
    exact List.mem_append.mpr (Or.inr (List.mem_filterMap.mpr ⟨(ih, task), hmem, hmove⟩))
  · rw [completedTask_eq_of_path env ih task st p hpath]
  · rw [hspec]
    dsimp only
    intro hmemk
    obtain ⟨q, hq, hq1⟩ := List.mem_map.mp hmemk
    obtain ⟨r, hr, hrs⟩ := List.mem_filterMap.mp hq
    have hkeyq : q.1 = r.1 := pollStay_key env r q hrs
    obtain ⟨r1, r2⟩ := r
    have hr1 : r1 = ih := by
      dsimp only at hkeyq
      rw [← hkeyq, hq1]
    subst hr1
    have heq : r2 = task := key_unique ts.downloading r1 r2 task hkeys hr hmem
    subst heq
    rw [hstaynone] at hrs
    cases hrs
  · rw [hspec]

/-- Witness for C4: the finished task hd of the concrete store, whose upload
returns an error result. -/
theorem finished_download_completes_witness :
    completedTask envFin "hd" taskD stFin ∈ (check_downloads envFin tsMix).completed ∧
    (completedTask envFin "hd" taskD stFin).completeTime = some envFin.now ∧
    (completedTask envFin "hd" taskD stFin).uploadResult =
      some (if envFin.isDir "/dl/file.bin"
        then UploadResult.folder (envFin.uploadFolder "/dl/file.bin")
        else UploadResult.file (envFin.uploadFile "/dl/file.bin")) ∧
    "hd" ∉ (check_downloads envFin tsMix).downloading.map Prod.fst ∧
    (check_downloads envFin tsMix).failed = tsMix.failed :=
  finished_download_completes envFin tsMix "hd" taskD stFin "/dl/file.bin"
    (by decide) (by decide) (by decide) (by decide) (by decide)

/-- C6: a pending task whose dispatch to the download client raises is moved
to failed with the error text recorded, is no longer pending, never enters
downloading, and the loop iteration persisted the store (main.py lines
119-142). -/
theorem dispatch_error_fails_task (ts : Tasks) (t : Task) (e : String) (now : Nat)
    (add : String → Except String String)
    (hwf : (sourcesList ts).Nodup)
    (hhash : (ts.pending.filterMap (okHash add)).Nodup)
    (hdis : ∀ h ∈ ts.pending.filterMap (okHash add), h ∉ ts.downloading.map Prod.fst)
    (hmem : t ∈ ts.pending)
    (herr : add t.source = .error e) :
    { t with error := some e } ∈ (process_pending_tasks add now ts).1.failed ∧
    inPending (process_pending_tasks add now ts).1 t.source = false ∧
    inDownloading (process_pending_tasks add now ts).1 t.source = false ∧
    1 ≤ (process_pending_tasks add now ts).2 := by
  have hndp : ts.pending.Nodup := pending_nodup_of_wf ts hwf
  obtain ⟨hspec, hsaves⟩ := process_pending_spec add now ts hndp hhash hdis
  refine ⟨?_, ?_, ?_, ?_⟩
  · rw [hspec]
    dsimp only
    exact List.mem_append.mpr (Or.inr (List.mem_filterMap.mpr ⟨t, hmem, by simp [herr]⟩))
  · rw [hspec]
    rfl
  · cases hd : inDownloading (process_pending_tasks add now ts).1 t.source with
    | false => rfl
    | true =>
      exfalso
      rw [hspec] at hd
      simp only [inDownloading] at hd
      rw [any_source2_eq_count] at hd
      have hoe := count_ok_err add now t.source ts.pending
      have herrc : 0 < ((errTasks add ts.pending).map Task.source).count t.source := by
        rw [List.count_pos_iff]
        exact List.mem_map.mpr
          ⟨{ t with error := some e }, List.mem_filterMap.mpr ⟨t, hmem, by simp [herr]⟩, rfl⟩
      have hwfc := List.nodup_iff_count_le_one.mp hwf t.source
      have hpc : 0 < (ts.pending.map Task.source).count t.source := by
        rw [List.count_pos_iff]
        exact List.mem_map.mpr ⟨t, hmem, rfl⟩
      simp only [sourcesList, List.count_append, List.map_append] at hwfc hd
      omega
  · rw [hsaves]
    have hlen := List.length_pos.mpr (List.ne_nil_of_mem hmem)
    omega

/-- Witness for C6: pending task m2 rejected by the concrete download
client. -/
theorem dispatch_error_fails_task_witness :
    { taskM2 with error := some "connection refused" } ∈
      (process_pending_tasks addFn 7 tsMix).1.failed ∧
    inPending (process_pending_tasks addFn 7 tsMix).1 taskM2.source = false ∧
    inDownloading (process_pending_tasks addFn 7 tsMix).1 taskM2.source = false ∧
    1 ≤ (process_pending_tasks addFn 7 tsMix).2 :=
  dispatch_error_fails_task tsMix taskM2 "connection refused" 7 addFn
    (by decide) (by decide) (by decide) (by decide) (by decide)

/-- C7: a downloading task whose status poll raises stays in the downloading
bucket with its record unchanged; the failed bucket is untouched, the
completed bucket gains no record with its source, and its occurrence count is
preserved, so the task is retried on the next tick (main.py lines
149-191). -/
theorem poll_error_leaves_downloading (env : Env) (ts : Tasks) (ih : String)
    (task : Task) (msg : String)
    (hwf : (sourcesList ts).Nodup)
    (hkeys : (ts.downloading.map Prod.fst).Nodup)
    (hmem : (ih, task) ∈ ts.downloading)
    (herr : env.getStatus ih = .error msg) :
    (ih, task) ∈ (check_downloads env ts).downloading ∧
    (check_downloads env ts).failed = ts.failed ∧
    inCompleted (check_downloads env ts) task.source = inCompleted ts task.source ∧
    occurrences (check_downloads env ts) task.source = occurrences ts task.source := by
  have hspec := check_downloads_spec env ts hkeys
  have hstay : pollStay env (ih, task) = some (ih, task) := by
    simp [pollStay, herr]
  refine ⟨?_, ?_, ?_, occurrences_check_downloads env ts task.source hkeys⟩
  · rw [hspec]
    dsimp only
    exact List.mem_filterMap.mpr ⟨(ih, task), hmem, hstay⟩
  · rw [hspec]
  · rw [hspec]
    simp only [inCompleted, List.any_append]
    have hmnone : ((ts.downloading.filterMap (pollMove env)).any
        (fun t => t.source == task.source)) = false := by
      cases hx : ((ts.downloading.filterMap (pollMove env)).any
          (fun t => t.source == task.source)) with
      | false => rfl
      | true =>
        exfalso
        rw [any_source_eq_count] at hx
        have hcp := count_poll env task.source ts.downloading
        have hstayc : 0 < ((ts.downloading.filterMap (pollStay env)).map
            (fun p => p.2.source)).count task.source := by
          rw [List.count_pos_iff]
          exact List.mem_map.mpr
            ⟨(ih, task), List.mem_filterMap.mpr ⟨(ih, task), hmem, hstay⟩, rfl⟩
        have hwfc := List.nodup_iff_count_le_one.mp hwf task.source
        have hdownc : 0 < (ts.downloading.map (fun p => p.2.source)).count task.source := by
          rw [List.count_pos_iff]
          exact List.mem_map.mpr ⟨(ih, task), hmem, rfl⟩
        simp only [sourcesList, List.count_append, List.map_append] at hwfc
        omega
    rw [hmnone]
    simp

/-- Witness for C7: hash hd polled in an environment where every status call
raises. -/
theorem poll_error_leaves_downloading_witness :
    ("hd", taskD) ∈ (check_downloads envErr tsMix).downloading ∧
    (check_downloads envErr tsMix).failed = tsMix.failed ∧
    inCompleted (check_downloads envErr tsMix) taskD.source =
      inCompleted tsMix taskD.source ∧
    occurrences (check_downloads envErr tsMix) taskD.source =
      occurrences tsMix taskD.source :=
  poll_error_leaves_downloading envErr tsMix "hd" taskD "timeout"
    (by decide) (by decide) (by decide) (by decide)

end BTOneDrive
